import Mathlib

/-!
Verification of the event-store dashboard's client-side logic.

The definitions below are shallow embeddings of the TypeScript source:
JavaScript numbers that the code only ever uses at integer values are
modelled as `Int`/`Nat`, fallible operations return `Option`/`Except`,
and React component state is passed explicitly.
-/

namespace EventStoreDashboard


/-! ## Playback / step controller (TimeTravel page)

State of the "time travel" playback controls: the `eventCount` cursor,
initialised to `1`, and the `isPlaying` flag, initialised to `false`.
The length of the fetched `timeline.events` list is passed as `n`.
-/

structure PlaybackState where
  eventCount : Int
  isPlaying : Bool
  deriving Repr, DecidableEq

/-- The playback operations a user (or the auto-play timer) can perform. -/
inductive PlaybackOp where
  | stepForward
  | stepBackward
  | jumpStart
  | jumpEnd
  | playPause
  | tick
  deriving Repr, DecidableEq

/-- `handleStepForward`: `setEventCount(prev => Math.min(prev + 1, timeline.events.length))`. -/
def handleStepForward (n : Int) (s : PlaybackState) : PlaybackState :=
  { s with eventCount := min (s.eventCount + 1) n }

/-- `handleStepBackward`: `setEventCount(prev => Math.max(prev - 1, 1))`. -/
def handleStepBackward (s : PlaybackState) : PlaybackState :=
  { s with eventCount := max (s.eventCount - 1) 1 }

/-- `handleJumpToStart`: `setEventCount(1); setIsPlaying(false)`. -/
def handleJumpToStart (_s : PlaybackState) : PlaybackState :=
  { eventCount := 1, isPlaying := false }

/-- `handleJumpToEnd`: `setEventCount(timeline.events.length); setIsPlaying(false)`. -/
def handleJumpToEnd (n : Int) (_s : PlaybackState) : PlaybackState :=
  { eventCount := n, isPlaying := false }

/-- `handlePlayPause`: `setIsPlaying(!isPlaying)`. -/
def handlePlayPause (s : PlaybackState) : PlaybackState :=
  { s with isPlaying := !s.isPlaying }

/-- One firing of the auto-play interval:
`setEventCount(prev => prev >= maxEvents ? 1 : prev + 1)`.
The effect is installed only while `isPlaying` is true, so the tick is a
no-op on a paused state. -/
def autoPlayTick (n : Int) (s : PlaybackState) : PlaybackState :=
  if s.isPlaying then
    { s with eventCount := if s.eventCount ≥ n then 1 else s.eventCount + 1 }
  else s

def applyPlaybackOp (n : Int) : PlaybackOp → PlaybackState → PlaybackState
  | .stepForward, s => handleStepForward n s
  | .stepBackward, s => handleStepBackward s
  | .jumpStart, s => handleJumpToStart s
  | .jumpEnd, s => handleJumpToEnd n s
  | .playPause, s => handlePlayPause s
  | .tick, s => autoPlayTick n s

/-- Run a finite sequence of playback operations from a start state. -/
def runPlayback (n : Int) (ops : List PlaybackOp) (s : PlaybackState) : PlaybackState :=
  ops.foldl (fun st op => applyPlaybackOp n op st) s

/-- The initial playback state: `eventCount = 1`, not playing. -/
def initialPlayback : PlaybackState := { eventCount := 1, isPlaying := false }

/-- The cursor invariant `1 ≤ eventCount ≤ n`. -/
def cursorInRange (n : Int) (s : PlaybackState) : Prop :=
  1 ≤ s.eventCount ∧ s.eventCount ≤ n

structure TimelineEvent where
  eventName : String
  timestamp : String
  changes : List String
  deriving Repr, DecidableEq

/-- JS `a >= b` on two dates: false whenever either side is `NaN`. -/
def jsDateGe : Option Int → Option Int → Bool
  | some a, some b => b ≤ a
  | _, _ => false

/-- JS `a <= b` on two dates: false whenever either side is `NaN`. -/
def jsDateLe : Option Int → Option Int → Bool
  | some a, some b => a ≤ b
  | _, _ => false

/-- The date-range filter of `EventTimeline` (EventStreams.tsx) and of the
Analytics page: keep `event` iff
`eventDate >= startDate && eventDate <= endDate`. -/
def filterByDateRange (dateValue : String → Option Int) (startStr endStr : String)
    (events : List TimelineEvent) : List TimelineEvent :=
  events.filter fun e =>
    jsDateGe (dateValue e.timestamp) (dateValue startStr) &&
      jsDateLe (dateValue e.timestamp) (dateValue endStr)

/-- A sample `Date` parse used by concrete witnesses. -/
def sampleDateValue : String → Option Int := fun s =>
  if s = "2024-01-01" then some 0
  else if s = "2024-01-31" then some 30
  else if s = "2024-01-06T00:00:00Z" then some 5
  else none

structure AnalyticsEvent where
  eventName : String
  day : Int
  deriving Repr, DecidableEq

/-- date-fns `eachDayOfInterval` for `start ≤ endD`: one entry per calendar
day of the closed interval. -/
def eachDayOfInterval (start endD : Int) : List Int :=
  List.map (fun i : Nat => start + (i : Int)) (List.range ((endD - start).toNat + 1))

/-- The `eventsOverTime` aggregation: for each day of the interval, a bucket
holding the total count (a `reduce` over the per-user event lists) of events
of that day. -/
def eventsOverTime (start endD : Int) (usersEvents : List (List AnalyticsEvent)) :
    List (Int × Nat) :=
  (eachDayOfInterval start endD).map fun d =>
    (d, usersEvents.foldl (fun c u => c + (u.filter (fun e => e.day = d)).length) 0)

/-! ## JSON values and JavaScript value semantics

`JsonVal` models the values produced by `JSON.parse` and consumed by
`JSON.stringify`.  Numbers are modelled at integer precision (`Int`): every
numeral the dashboard's own code serialises or reads — `exp` claims in
tokens and the numeric settings fields, all produced by `parseInt` or
constants — is an integer. -/

inductive JsonVal where
  | null
  | bool (b : Bool)
  | num (n : Int)
  | str (s : String)
  | arr (elems : List JsonVal)
  | obj (fields : List (String × JsonVal))

/-- JavaScript truthiness of a JSON value: `null`, `false`, `0` and the
empty string are falsy; arrays and objects are always truthy. -/
def jsTruthy : JsonVal → Bool
  | .null => false
  | .bool b => b
  | .num n => decide (n ≠ 0)
  | .str s => decide (s ≠ "")
  | .arr _ => true
  | .obj _ => true

/-- Property lookup on a JS object: with duplicate keys the later entry
wins, as in JavaScript object construction. -/
def jsonFieldLookup (fields : List (String × JsonVal)) (k : String) : Option JsonVal :=
  fields.foldl (fun acc f => if f.1 = k then some f.2 else acc) none

/-! ## JSON text: parsing (`JSON.parse`) and serialisation (`JSON.stringify`)

A character-list model of the JavaScript built-ins at the precision the
dashboard uses them: full object/array/string/bool/null support, numbers
restricted to integer numerals (no fraction or exponent part), and string
escapes restricted to scalar values (no lone UTF-16 surrogates, which Lean
strings cannot represent). -/

/-- JSON insignificant whitespace. -/
def isJsonWs (c : Char) : Bool :=
  c = ' ' || c = '\t' || c = '\n' || c = '\r'

def skipWs : List Char → List Char
  | [] => []
  | c :: cs => if isJsonWs c then skipWs cs else c :: cs

def hexDigitVal (c : Char) : Option Nat :=
  if '0' ≤ c ∧ c ≤ '9' then some (c.toNat - 48)
  else if 'a' ≤ c ∧ c ≤ 'f' then some (c.toNat - 87)
  else if 'A' ≤ c ∧ c ≤ 'F' then some (c.toNat - 55)
  else none

/-- The two-character JSON escapes. -/
def simpleEscape (e : Char) : Option Char :=
  if e = '"' then some '"'
  else if e = '\\' then some '\\'
  else if e = '/' then some '/'
  else if e = 'b' then some (Char.ofNat 8)
  else if e = 'f' then some (Char.ofNat 12)
  else if e = 'n' then some '\n'
  else if e = 'r' then some '\r'
  else if e = 't' then some '\t'
  else none

/-- Parse the body of a JSON string literal (after the opening quote), up to
and including the closing quote.  Returns the decoded characters and the
remaining input.  Unescaped control characters are a parse error; `\uXXXX`
escapes in the surrogate range are outside the model. -/
def consFst (c : Char) : Option (List Char × List Char) → Option (List Char × List Char)
  | some (s, r) => some (c :: s, r)
  | none => none

/-- Lexer state inside a JSON string literal: scanning ordinary characters,
just after a backslash, or `left` digits into a `\uXXXX` escape with the
hex value accumulated so far. -/
inductive EscState where
  | normal
  | esc
  | hex (left : Nat) (acc : Nat)

/-- Scan the body of a JSON string literal (after the opening quote), up to
and including the closing quote, returning the decoded characters and the
remaining input.  Unescaped control characters are a parse error, and —
as Lean strings hold scalar values — `\uXXXX` escapes in the UTF-16
surrogate range are outside the model. -/
def parseStringAux : EscState → List Char → Option (List Char × List Char)
  | _, [] => none
  | st, c :: cs =>
    match st with
    | .normal =>
      if c = '"' then some ([], cs)
      else if c = '\\' then parseStringAux .esc cs
      else if c.toNat < 0x20 then none
      else consFst c (parseStringAux .normal cs)
    | .esc =>
      match simpleEscape c with
      | some d => consFst d (parseStringAux .normal cs)
      | none => if c = 'u' then parseStringAux (.hex 4 0) cs else none
    | .hex left acc =>
      match hexDigitVal c with
      | some v =>
        if left = 1 then
          if 0xD800 ≤ acc * 16 + v ∧ acc * 16 + v ≤ 0xDFFF then none
          else consFst (Char.ofNat (acc * 16 + v)) (parseStringAux .normal cs)
        else parseStringAux (.hex (left - 1) (acc * 16 + v)) cs
      | none => none

def parseStringBody (cs : List Char) : Option (List Char × List Char) :=
  parseStringAux .normal cs

/-- Split a maximal run of leading decimal digits off the input. -/
def takeDigits : List Char → List Char × List Char
  | [] => ([], [])
  | c :: cs =>
    if c.isDigit then
      let p := takeDigits cs
      (c :: p.1, p.2)
    else ([], c :: cs)

def digitsToNat (ds : List Char) : Nat :=
  ds.foldl (fun a c => a * 10 + (c.toNat - 48)) 0

/-- Parse a JSON natural numeral: at least one digit, no leading zero, and —
as a stated model restriction — no fraction or exponent part. -/
def parseNatToken (cs : List Char) : Option (Nat × List Char) :=
  let p := takeDigits cs
  if p.1 = [] then none
  else if p.1.length > 1 ∧ p.1.head? = some '0' then none
  else if p.2.head? = some '.' ∨ p.2.head? = some 'e' ∨ p.2.head? = some 'E' then none
  else some (digitsToNat p.1, p.2)

/-- Parse a JSON integer numeral with optional leading minus. -/
def parseNumberToken (cs : List Char) : Option (Int × List Char) :=
  match cs with
  | [] => none
  | c :: cs2 =>
    if c = '-' then
      match parseNatToken cs2 with
      | some (n, r) => some (-(n : Int), r)
      | none => none
    else
      match parseNatToken (c :: cs2) with
      | some (n, r) => some ((n : Int), r)
      | none => none

mutual

/-- Recursive-descent JSON value parser (fuel-indexed to bound recursion;
`jsonParse` supplies one unit of fuel per input character, which is ample
since every member and element consumes at least one character). -/
def parseJsonValue : Nat → List Char → Option (JsonVal × List Char)
  | 0, _ => none
  | Nat.succ fuel, cs =>
    match skipWs cs with
    | [] => none
    | c :: r =>
      if c = 't' then
        match r with
        | 'r' :: 'u' :: 'e' :: r2 => some (.bool true, r2)
        | _ => none
      else if c = 'f' then
        match r with
        | 'a' :: 'l' :: 's' :: 'e' :: r2 => some (.bool false, r2)
        | _ => none
      else if c = 'n' then
        match r with
        | 'u' :: 'l' :: 'l' :: r2 => some (.null, r2)
        | _ => none
      else if c = '"' then
        match parseStringBody r with
        | some (s, r2) => some (.str (String.mk s), r2)
        | none => none
      else if c = Char.ofNat 123 then
        match skipWs r with
        | [] => none
        | c2 :: r2 =>
          if c2 = Char.ofNat 125 then some (.obj [], r2)
          else parseMembers fuel (c2 :: r2) []
      else if c = '[' then
        match skipWs r with
        | [] => none
        | c2 :: r2 =>
          if c2 = ']' then some (.arr [], r2)
          else parseElements fuel (c2 :: r2) []
      else if c = '-' ∨ c.isDigit then
        match parseNumberToken (c :: r) with
        | some (n, r2) => some (.num n, r2)
        | none => none
      else none

/-- Parse the members of a non-empty JSON object, accumulating parsed fields. -/
def parseMembers : Nat → List Char → List (String × JsonVal) →
    Option (JsonVal × List Char)
  | 0, _, _ => none
  | Nat.succ fuel, cs, acc =>
    match skipWs cs with
    | [] => none
    | c :: r =>
      if c = '"' then
        match parseStringBody r with
        | some (k, r2) =>
          match skipWs r2 with
          | ':' :: r3 =>
            match parseJsonValue fuel r3 with
            | some (v, r4) =>
              match skipWs r4 with
              | [] => none
              | c5 :: r5 =>
                if c5 = ',' then parseMembers fuel r5 (acc ++ [(String.mk k, v)])
                else if c5 = Char.ofNat 125 then some (.obj (acc ++ [(String.mk k, v)]), r5)
                else none
            | none => none
          | _ => none
        | none => none
      else none

/-- Parse the elements of a non-empty JSON array, accumulating parsed values. -/
def parseElements : Nat → List Char → List JsonVal → Option (JsonVal × List Char)
  | 0, _, _ => none
  | Nat.succ fuel, cs, acc =>
    match parseJsonValue fuel cs with
    | some (v, r) =>
      match skipWs r with
      | [] => none
      | c :: r2 =>
        if c = ',' then parseElements fuel r2 (acc ++ [v])
        else if c = ']' then some (.arr (acc ++ [v]), r2)
        else none
    | none => none

end

/-- `JSON.parse`: parse one JSON value and require only whitespace after it. -/
def jsonParse (text : String) : Option JsonVal :=
  match parseJsonValue (text.length + 1) text.data with
  | some (v, rest) => if skipWs rest = [] then some v else none
  | none => none

/-- Decimal digits of a natural number, most significant first. -/
def natDigits (n : Nat) : List Char :=
  if _h : n < 10 then [Char.ofNat (48 + n)]
  else natDigits (n / 10) ++ [Char.ofNat (48 + n % 10)]
  decreasing_by omega

/-- JS number-to-string for the integer values the dashboard serialises. -/
def renderInt (n : Int) : List Char :=
  if n < 0 then '-' :: natDigits n.natAbs else natDigits n.toNat

def hexCharLower (n : Nat) : Char :=
  if n < 10 then Char.ofNat (48 + n) else Char.ofNat (87 + n)

/-- `QuoteJSONString` escaping of one character: quote, backslash and the
named control escapes get two-character forms, other control characters get
`\u00XX`, everything else is emitted verbatim. -/
def escapeJsonChar (c : Char) : List Char :=
  if c = '"' then ['\\', '"']
  else if c = '\\' then ['\\', '\\']
  else if c = Char.ofNat 8 then ['\\', 'b']
  else if c = Char.ofNat 12 then ['\\', 'f']
  else if c = '\n' then ['\\', 'n']
  else if c = '\r' then ['\\', 'r']
  else if c = '\t' then ['\\', 't']
  else if c.toNat < 0x20 then
    ['\\', 'u', '0', '0', hexCharLower (c.toNat / 16), hexCharLower (c.toNat % 16)]
  else [c]

def escapeJsonString : List Char → List Char
  | [] => []
  | c :: cs => escapeJsonChar c ++ escapeJsonString cs

mutual

/-- `JSON.stringify(v, null, 2)` at nesting indentation `ind`: pretty
printing with a two-space gap, exactly as the ECMAScript serialisation
algorithm lays out objects and arrays. -/
def renderJson : List Char → JsonVal → List Char
  | _, .null => ['n', 'u', 'l', 'l']
  | _, .bool true => ['t', 'r', 'u', 'e']
  | _, .bool false => ['f', 'a', 'l', 's', 'e']
  | _, .num n => renderInt n
  | _, .str s => '"' :: (escapeJsonString s.data ++ ['"'])
  | _, .arr [] => ['[', ']']
  | ind, .arr (x :: xs) =>
    '[' :: '\n' :: (renderElems ind x xs ++ ('\n' :: ind ++ [']']))
  | _, .obj [] => [Char.ofNat 123, Char.ofNat 125]
  | ind, .obj (f :: fs) =>
    Char.ofNat 123 :: '\n' :: (renderFields ind f fs ++ ('\n' :: ind ++ [Char.ofNat 125]))
  termination_by ind v => sizeOf v

/-- One serialised object member: indentation, quoted key, `": "`, value. -/
def renderField : List Char → String × JsonVal → List Char
  | ind, (k, v) =>
    (ind ++ [' ', ' ']) ++
      ('"' :: (escapeJsonString k.data ++ ['"', ':', ' '])) ++
        renderJson (ind ++ [' ', ' ']) v
  termination_by ind f => sizeOf f

def renderFields : List Char → String × JsonVal → List (String × JsonVal) → List Char
  | ind, f, [] => renderField ind f
  | ind, f, g :: fs => renderField ind f ++ (',' :: '\n' :: renderFields ind g fs)
  termination_by ind f fs => 1 + sizeOf f + sizeOf fs

def renderElems : List Char → JsonVal → List JsonVal → List Char
  | ind, x, [] => (ind ++ [' ', ' ']) ++ renderJson (ind ++ [' ', ' ']) x
  | ind, x, y :: ys =>
    ((ind ++ [' ', ' ']) ++ renderJson (ind ++ [' ', ' ']) x) ++
      (',' :: '\n' :: renderElems ind y ys)
  termination_by ind x xs => 1 + sizeOf x + sizeOf xs

end

/-- `JSON.stringify(v, null, 2)`. -/
def jsonStringify2 (v : JsonVal) : String :=
  String.mk (renderJson [] v)

/-! ## `atob` and `decodeURIComponent` (utils/auth.ts helpers)

`decodeJWT` computes
`decodeURIComponent(atob(base64).split('').map(c => '%' + ...).join(''))`:
`atob` decodes forgiving base64 into a byte-per-character string, and the
percent-encoding trick makes `decodeURIComponent` UTF-8-decode those bytes,
throwing on malformed sequences.  We model the bytes as `List Nat` and the
two steps as `atob` and `utf8Decode`. -/

/-- JS `token.split('.')` on the characters of the token: split at every
dot; adjacent dots and leading/trailing dots produce empty segments. -/
def splitOnDot : List Char → List (List Char)
  | [] => [[]]
  | c :: rest =>
    let r := splitOnDot rest
    if c = '.' then [] :: r
    else
      match r with
      | h :: t => (c :: h) :: t
      | [] => [[c]]

def base64Val (c : Char) : Option Nat :=
  if 'A' ≤ c ∧ c ≤ 'Z' then some (c.toNat - 65)
  else if 'a' ≤ c ∧ c ≤ 'z' then some (c.toNat - 71)
  else if '0' ≤ c ∧ c ≤ '9' then some (c.toNat + 4)
  else if c = '+' then some 62
  else if c = '/' then some 63
  else none

/-- ASCII whitespace stripped by forgiving-base64. -/
def isBase64Ws (c : Char) : Bool :=
  c = '\t' || c = '\n' || c = Char.ofNat 12 || c = '\r' || c = ' '

/-- When the input length is a multiple of four, remove one or two trailing
`=` padding characters (forgiving-base64 step 2). -/
def base64StripEq (cs : List Char) : List Char :=
  if cs.length % 4 = 0 then
    let c1 := if cs.getLast? = some '=' then cs.dropLast else cs
    if c1.getLast? = some '=' ∧ c1.length ≠ cs.length then c1.dropLast else c1
  else cs

/-- Reassemble 6-bit groups into bytes, discarding leftover bits of a final
partial group (forgiving-base64 is not strict about them). -/
def sextetsToBytes : List Nat → List Nat
  | a :: b :: c :: d :: rest =>
    (a * 4 + b / 16) :: ((b % 16) * 16 + c / 4) :: ((c % 4) * 64 + d) :: sextetsToBytes rest
  | [a, b] => [a * 4 + b / 16]
  | [a, b, c] => [a * 4 + b / 16, (b % 16) * 16 + c / 4]
  | _ => []

/-- The `atob` built-in (forgiving-base64 decode): strip ASCII whitespace,
strip permitted `=` padding, reject a length of 1 mod 4 and any character
outside the base64 alphabet, then decode to bytes. -/
def atob (s : List Char) : Option (List Nat) :=
  let cs := base64StripEq (s.filter (fun c => !(isBase64Ws c)))
  if cs.length % 4 = 1 then none
  else
    match cs.mapM base64Val with
    | some sextets => some (sextetsToBytes sextets)
    | none => none

def isUtf8Cont (b : Nat) : Bool :=
  decide (0x80 ≤ b ∧ b ≤ 0xBF)

/-- Strict UTF-8 decoding of a byte list (the effect of the
percent-encoding/`decodeURIComponent` round through the bytes `atob`
produced): rejects truncated, overlong and surrogate sequences, as
`decodeURIComponent` does by throwing `URIError`. -/
def utf8Decode : List Nat → Option (List Char)
  | [] => some []
  | b :: rest =>
    if b < 0x80 then
      match utf8Decode rest with
      | some cs => some (Char.ofNat b :: cs)
      | none => none
    else if 0xC2 ≤ b ∧ b ≤ 0xDF then
      match rest with
      | b1 :: rest2 =>
        if isUtf8Cont b1 then
          match utf8Decode rest2 with
          | some cs => some (Char.ofNat ((b - 0xC0) * 64 + (b1 - 0x80)) :: cs)
          | none => none
        else none
      | [] => none
    else if 0xE0 ≤ b ∧ b ≤ 0xEF then
      match rest with
      | b1 :: b2 :: rest3 =>
        if (if b = 0xE0 then 0xA0 else 0x80) ≤ b1 ∧ b1 ≤ (if b = 0xED then 0x9F else 0xBF) ∧
            isUtf8Cont b2 then
          match utf8Decode rest3 with
          | some cs =>
            some (Char.ofNat ((b - 0xE0) * 4096 + (b1 - 0x80) * 64 + (b2 - 0x80)) :: cs)
          | none => none
        else none
      | _ => none
    else if 0xF0 ≤ b ∧ b ≤ 0xF4 then
      match rest with
      | b1 :: b2 :: b3 :: rest4 =>
        if (if b = 0xF0 then 0x90 else 0x80) ≤ b1 ∧ b1 ≤ (if b = 0xF4 then 0x8F else 0xBF) ∧
            isUtf8Cont b2 ∧ isUtf8Cont b3 then
          match utf8Decode rest4 with
          | some cs =>
            some (Char.ofNat
              ((b - 0xF0) * 262144 + (b1 - 0x80) * 4096 + (b2 - 0x80) * 64 + (b3 - 0x80)) :: cs)
          | none => none
        else none
      | _ => none
    else none

/-! ## utils/auth.ts -/

/-- `decodeJWT`: take segment 1 of the dot-separated token, undo the
base64url character substitutions, `atob` it, UTF-8-decode the bytes and
`JSON.parse` the result; any failure along the way (which in the JS code
raises and is caught) yields `null`. -/
def decodeJWT (token : String) : Option JsonVal :=
  match (splitOnDot token.data).get? 1 with
  | none => none
  | some seg =>
    let base64 := seg.map (fun c => if c = '-' then '+' else if c = '_' then '/' else c)
    match atob base64 with
    | none => none
    | some bytes =>
      match utf8Decode bytes with
      | some chars => jsonParse (String.mk chars)
      | none => none

/-- `isTokenExpired`: an undecodable (or falsy) payload is expired;
otherwise compare the payload's `exp` against the current time in seconds
(`Date.now() / 1000`, passed explicitly).  A missing or non-numeric `exp`
makes the JS comparison `decoded.exp < currentTime` evaluate to `false`. -/
def isTokenExpired (token : String) (nowSeconds : Int) : Bool :=
  match decodeJWT token with
  | none => true
  | some decoded =>
    if jsTruthy decoded then
      match decoded with
      | .obj fields =>
        match jsonFieldLookup fields "exp" with
        | some (.num e) => decide (e < nowSeconds)
        | _ => false
      | _ => false
    else true

/-- A well-formed sample token whose payload is the base64url encoding of
the ASCII text `\x7b"exp":999\x7d`. -/
def sampleToken : String := "h.eyJleHAiOjk5OX0.s"

/-! ## Settings page (export / import) -/

structure Settings where
  apiUrl : String
  refreshInterval : Int
  maxEventsPerPage : Int
  enableNotifications : Bool
  enableAutoRefresh : Bool
  retentionDays : Int
  compressionEnabled : Bool
  debugMode : Bool

/-- The settings state as the JS object literal held in component state. -/
def settingsToJson (s : Settings) : JsonVal :=
  .obj [("apiUrl", .str s.apiUrl),
    ("refreshInterval", .num s.refreshInterval),
    ("maxEventsPerPage", .num s.maxEventsPerPage),
    ("enableNotifications", .bool s.enableNotifications),
    ("enableAutoRefresh", .bool s.enableAutoRefresh),
    ("retentionDays", .num s.retentionDays),
    ("compressionEnabled", .bool s.compressionEnabled),
    ("debugMode", .bool s.debugMode)]

/-- `handleExportSettings` download content: `JSON.stringify(settings, null, 2)`. -/
def handleExportSettings (s : Settings) : String :=
  jsonStringify2 (settingsToJson s)

/-- The object spread `\x7b...settings, ...importedSettings\x7d`: keys of the
base keep their insertion order and take the imported value when the
imported object also has that key; imported-only keys are appended.
Spreading a non-object adds no string-keyed properties (a string would add
index keys, which the dashboard never does and the model omits). -/
def jsSpreadMerge (base imported : JsonVal) : JsonVal :=
  match base, imported with
  | .obj bs, .obj is =>
    .obj ((bs.map (fun f => (f.1, (jsonFieldLookup is f.1).getD f.2))) ++
      (is.filter (fun g => !(bs.any (fun f => f.1 == g.1)))))
  | .obj bs, _ => .obj bs
  | b, _ => b

/-- `handleImportSettings` on the text of the chosen file: `JSON.parse` it
(a parse error is caught, alerts and leaves the settings untouched —
modelled as `none`), then `setSettings(\x7b...settings, ...imported\x7d)`. -/
def handleImportSettings (current : Settings) (fileText : String) : Option JsonVal :=
  match jsonParse fileText with
  | some imported => some (jsSpreadMerge (settingsToJson current) imported)
  | none => none

/-! ## API client error paths (services/api.ts, reproduced in the README)
and route guarding (PrivateRoute) -/

inductive ApiError where
  | network
  | httpStatus (status : Nat)
  deriving Repr, DecidableEq

/-- Envelope unwrapping `response.data?.data || response.data`. -/
def unwrapEnvelope (body : JsonVal) : JsonVal :=
  match body with
  | .obj fields =>
    match jsonFieldLookup fields "data" with
    | some v => if jsTruthy v then v else body
    | none => body
  | _ => body

/-- `healthApi.getHealth` applied to the outcome of `api.get('/health')`:
unwraps the envelope on success; on error it logs and rethrows. -/
def getHealth (response : Except ApiError JsonVal) : Except ApiError JsonVal :=
  match response with
  | .ok body => .ok (unwrapEnvelope body)
  | .error e => .error e

/-- `notificationsApi.getUnreadCount`: unwraps the envelope on success; on
error it resolves with the neutral fallback `\x7b unreadCount: 0 \x7d`. -/
def getUnreadCount (response : Except ApiError JsonVal) : Except ApiError JsonVal :=
  match response with
  | .ok body => .ok (unwrapEnvelope body)
  | .error _ => .ok (.obj [("unreadCount", .num 0)])

/-- The browser storage keys the auth flow touches. -/
structure BrowserStorage where
  authToken : Option String
  user : Option String
  deriving Repr, DecidableEq

/-- The response interceptor's error branch:
`if (error.response?.status === 401) localStorage.removeItem('authToken')`
(`status = none` models a network error with no response; the interceptor's
production-only `window.location.href` assignment is presentation and the
route guard below covers the redirect behaviour). -/
def interceptorOnError (st : BrowserStorage) (status : Option Nat) : BrowserStorage :=
  if status = some 401 then { st with authToken := none } else st

inductive RouteDecision where
  | redirectToLogin
  | renderChildren
  deriving Repr, DecidableEq

/-- `PrivateRoute`: with no stored token, or an expired one, remove the
token and user keys and navigate to `/login`; otherwise render the guarded
children. -/
def privateRoute (st : BrowserStorage) (nowSeconds : Int) : RouteDecision × BrowserStorage :=
  match st.authToken with
  | none => (.redirectToLogin, { authToken := none, user := none })
  | some t =>
    if isTokenExpired t nowSeconds then (.redirectToLogin, { authToken := none, user := none })
    else (.renderChildren, st)

/-- The character after a serialised numeral must not extend the numeral:
not a digit and not a fraction/exponent introducer. -/
def numBoundary (rest : List Char) : Prop :=
  ∀ c, rest.head? = some c → ¬(c.isDigit = true) ∧ c ≠ '.' ∧ c ≠ 'e' ∧ c ≠ 'E'

/-- A JSON value that parses back from its serialised form, whatever
follows it (used for the leaf values of the settings object). -/
def LeafParses (v : JsonVal) : Prop :=
  ∀ fuel ind rest, numBoundary rest →
    parseJsonValue (fuel + 1) (renderJson ind v ++ rest) = some (v, rest)

lemma cursorInRange_apply (n : Int) (hn : 1 ≤ n) (op : PlaybackOp) (s : PlaybackState)
    (h : cursorInRange n s) : cursorInRange n (applyPlaybackOp n op s) := by
  obtain ⟨h1, h2⟩ := h
  cases op <;>
    simp only [applyPlaybackOp, handleStepForward, handleStepBackward, handleJumpToStart,
      handleJumpToEnd, handlePlayPause, autoPlayTick, cursorInRange] <;>
    (try split_ifs) <;> (try simp) <;> omega

lemma cursorInRange_run (n : Int) (hn : 1 ≤ n) (ops : List PlaybackOp) (s : PlaybackState)
    (h : cursorInRange n s) : cursorInRange n (runPlayback n ops s) := by
  induction ops generalizing s with
  | nil => exact h
  | cons op rest ih =>
    exact ih _ (cursorInRange_apply n hn op s h)

/-! ## Date-range filter (EventStreams timeline view and Analytics page)

Both pages filter a fetched timeline with
`new Date(event.timestamp) >= new Date(dateRange.start) && new Date(event.timestamp) <= new Date(dateRange.end)`.
A JavaScript `Date` relational comparison compares the numeric millisecond
values; an unparseable timestamp gives `NaN` and every comparison against
`NaN` is false. We model the value of `new Date(s)` as `Option Int`
(`none` = invalid date / `NaN`), with the parse function `dateValue`
passed as a parameter standing for the JS `Date` constructor. -/

lemma jsDate_between_iff (o : Option Int) (lo hi : Int) :
    (jsDateGe o (some lo) && jsDateLe o (some hi)) = true ↔
      ∃ v, o = some v ∧ lo ≤ v ∧ v ≤ hi := by
  cases o <;> simp [jsDateGe, jsDateLe] <;> omega

/-! ## Day-bucket aggregation (Analytics page, `eventsOverTime`)

The Analytics page builds `eachDayOfInterval({start, end})` and, for each
day, sums over the per-user `eventsInRange` lists the number of events whose
timestamp formats to the same `yyyy-MM-dd` string as that day.  We abstract
a timestamp to its calendar-day index `day : Int` (two timestamps fall in
the same bucket iff they format to the same day string). -/

lemma length_eachDayOfInterval (start endD : Int) :
    (eachDayOfInterval start endD).length = (endD - start).toNat + 1 := by
  rw [eachDayOfInterval, List.length_map, List.length_range]

lemma mem_eachDayOfInterval {start endD d : Int} (h : start ≤ endD) :
    d ∈ eachDayOfInterval start endD ↔ start ≤ d ∧ d ≤ endD := by
  simp only [eachDayOfInterval, List.mem_map, List.mem_range]
  constructor
  · rintro ⟨i, hi, hd⟩
    omega
  · rintro ⟨h1, h2⟩
    exact ⟨(d - start).toNat, by omega, by omega⟩

lemma nodup_eachDayOfInterval (start endD : Int) :
    (eachDayOfInterval start endD).Nodup := by
  simp only [eachDayOfInterval]
  exact (List.nodup_range _).map (fun a b hab => by omega)

lemma sum_map_add_distrib {α : Type} (l : List α) (f g : α → Nat) :
    (l.map (fun x => f x + g x)).sum = (l.map f).sum + (l.map g).sum := by
  induction l with
  | nil => simp
  | cons x t ih => simp [ih]; omega

lemma sum_map_indicator (days : List Int) (a : Int) :
    (days.map (fun d => if a = d then 1 else 0)).sum = days.count a := by
  induction days with
  | nil => simp
  | cons d t ih =>
    simp only [List.map_cons, List.sum_cons, List.count_cons, ih, beq_iff_eq]
    by_cases h : a = d
    · simp only [h, if_pos rfl, if_pos rfl]
      omega
    · rw [if_neg h, if_neg (fun hh => h hh.symm)]
      omega

lemma foldl_add_counts (usersEvents : List (List AnalyticsEvent)) (d : Int) (init : Nat) :
    usersEvents.foldl (fun c u => c + (u.filter (fun e => e.day = d)).length) init =
      init + (usersEvents.map (fun u => (u.filter (fun e => e.day = d)).length)).sum := by
  induction usersEvents generalizing init with
  | nil => simp
  | cons u t ih => simp [List.foldl_cons, ih]; omega

lemma day_partition_single (days : List Int) (hnd : days.Nodup) (l : List AnalyticsEvent)
    (hin : ∀ e ∈ l, e.day ∈ days) :
    (days.map (fun d => (l.filter (fun e => e.day = d)).length)).sum = l.length := by
  induction l with
  | nil => simp
  | cons e t ih =>
    have ht : ∀ x ∈ t, x.day ∈ days := fun x hx => hin x (List.mem_cons_of_mem _ hx)
    have he : e.day ∈ days := hin e (List.mem_cons_self _ _)
    have hfilter : ∀ d : Int,
        ((e :: t).filter (fun x => x.day = d)).length =
          (if e.day = d then 1 else 0) + (t.filter (fun x => x.day = d)).length := by
      intro d
      by_cases h : e.day = d <;> simp [List.filter_cons, h] <;> omega
    calc (days.map (fun d => ((e :: t).filter (fun x => x.day = d)).length)).sum
        = (days.map (fun d =>
            (if e.day = d then 1 else 0) + (t.filter (fun x => x.day = d)).length)).sum := by
          congr 1
          exact List.map_congr_left (fun d _ => hfilter d)
      _ = (days.map (fun d => if e.day = d then 1 else 0)).sum +
            (days.map (fun d => (t.filter (fun x => x.day = d)).length)).sum :=
          sum_map_add_distrib _ _ _
      _ = days.count e.day + t.length := by rw [sum_map_indicator, ih ht]
      _ = (e :: t).length := by
          rw [List.count_eq_one_of_mem hnd he]
          simp
          omega

lemma day_partition (days : List Int) (hnd : days.Nodup)
    (usersEvents : List (List AnalyticsEvent))
    (hin : ∀ u ∈ usersEvents, ∀ e ∈ u, e.day ∈ days) :
    (days.map (fun d =>
        (usersEvents.map (fun u => (u.filter (fun e => e.day = d)).length)).sum)).sum =
      (usersEvents.map List.length).sum := by
  induction usersEvents with
  | nil => simp
  | cons u t ih =>
    have hu : ∀ e ∈ u, e.day ∈ days := hin u (List.mem_cons_self _ _)
    have ht : ∀ x ∈ t, ∀ e ∈ x, e.day ∈ days :=
      fun x hx => hin x (List.mem_cons_of_mem _ hx)
    simp only [List.map_cons, List.sum_cons]
    rw [sum_map_add_distrib, day_partition_single days hnd u hu, ih ht]

/-- C5: for every event list and every bounds pair parsing to `lo ≤ _ ≤ hi`,
the date-range filter keeps a record iff its timestamp parses and
`lo ≤ timestamp ≤ hi` (both bounds inclusive); records with an invalid
timestamp are excluded (never an error), and the empty list filters to the
empty list. -/
theorem c5_date_range_filter (dateValue : String → Option Int) (startStr endStr : String)
    (lo hi : Int) (hlo : dateValue startStr = some lo) (hhi : dateValue endStr = some hi)
    (events : List TimelineEvent) :
    (∀ e, e ∈ filterByDateRange dateValue startStr endStr events ↔
        e ∈ events ∧ ∃ ts, dateValue e.timestamp = some ts ∧ lo ≤ ts ∧ ts ≤ hi) ∧
    filterByDateRange dateValue startStr endStr [] = [] := by
  constructor
  · intro e
    rw [filterByDateRange, List.mem_filter, hlo, hhi]
    rw [and_congr_right_iff]
    intro _
    exact jsDate_between_iff (dateValue e.timestamp) lo hi
  · rfl

/-- Witness for C5 on a concrete range and a two-event list (one event inside
the range, one with an unparseable timestamp). -/
theorem c5_date_range_filter_witness :
    sampleDateValue "2024-01-01" = some 0 ∧ sampleDateValue "2024-01-31" = some 30 ∧
      ((∀ e, e ∈ filterByDateRange sampleDateValue "2024-01-01" "2024-01-31"
            [⟨"created", "2024-01-06T00:00:00Z", []⟩, ⟨"updated", "not-a-date", []⟩] ↔
          e ∈ [TimelineEvent.mk "created" "2024-01-06T00:00:00Z" [],
              TimelineEvent.mk "updated" "not-a-date" []] ∧
            ∃ ts, sampleDateValue e.timestamp = some ts ∧ 0 ≤ ts ∧ ts ≤ 30) ∧
        filterByDateRange sampleDateValue "2024-01-01" "2024-01-31" [] = []) :=
  ⟨by decide, by decide,
    c5_date_range_filter sampleDateValue "2024-01-01" "2024-01-31" 0 30
      (by decide) (by decide)
      [⟨"created", "2024-01-06T00:00:00Z", []⟩, ⟨"updated", "not-a-date", []⟩]⟩

/-- C7: for every interval `[start, endD]` with `start ≤ endD` and every
family of per-user event lists whose events all fall (by calendar day) in the
interval, `eventsOverTime` produces exactly `(endD - start) + 1` buckets,
every bucket count is a non-negative integer, and the counts sum to the
total number of input events. -/
theorem c7_day_bucket_aggregation (start endD : Int) (hse : start ≤ endD)
    (usersEvents : List (List AnalyticsEvent))
    (hin : ∀ u ∈ usersEvents, ∀ e ∈ u, start ≤ e.day ∧ e.day ≤ endD) :
    (eventsOverTime start endD usersEvents).length = (endD - start).toNat + 1 ∧
    (∀ b ∈ eventsOverTime start endD usersEvents, 0 ≤ b.2) ∧
    ((eventsOverTime start endD usersEvents).map Prod.snd).sum =
      (usersEvents.map List.length).sum := by
  refine ⟨?_, fun b _ => Nat.zero_le _, ?_⟩
  · rw [eventsOverTime, List.length_map, length_eachDayOfInterval]
  · have hdays : ∀ u ∈ usersEvents, ∀ e ∈ u, e.day ∈ eachDayOfInterval start endD := by
      intro u hu e he
      exact (mem_eachDayOfInterval hse).mpr (hin u hu e he)
    calc ((eventsOverTime start endD usersEvents).map Prod.snd).sum
        = ((eachDayOfInterval start endD).map (fun d =>
            usersEvents.foldl
              (fun c u => c + (u.filter (fun e => e.day = d)).length) 0)).sum := by
          rw [eventsOverTime, List.map_map]
          rfl
      _ = ((eachDayOfInterval start endD).map (fun d =>
            (usersEvents.map (fun u => (u.filter (fun e => e.day = d)).length)).sum)).sum := by
          congr 1
          exact List.map_congr_left (fun d _ => by rw [foldl_add_counts]; omega)
      _ = (usersEvents.map List.length).sum :=
          day_partition _ (nodup_eachDayOfInterval start endD) usersEvents hdays

/-- Witness for C7 over the three-day interval `[0, 2]` with two users. -/
theorem c7_day_bucket_aggregation_witness :
    (0 : Int) ≤ 2 ∧
      (∀ u ∈ [[AnalyticsEvent.mk "a" 0, AnalyticsEvent.mk "b" 2], [AnalyticsEvent.mk "c" 1]],
        ∀ e ∈ u, (0 : Int) ≤ e.day ∧ e.day ≤ 2) ∧
      ((eventsOverTime 0 2 [[⟨"a", 0⟩, ⟨"b", 2⟩], [⟨"c", 1⟩]]).length = (2 - 0 : Int).toNat + 1 ∧
        (∀ b ∈ eventsOverTime 0 2 [[⟨"a", 0⟩, ⟨"b", 2⟩], [⟨"c", 1⟩]], 0 ≤ b.2) ∧
        ((eventsOverTime 0 2 [[⟨"a", 0⟩, ⟨"b", 2⟩], [⟨"c", 1⟩]]).map Prod.snd).sum =
          ([[AnalyticsEvent.mk "a" 0, AnalyticsEvent.mk "b" 2],
            [AnalyticsEvent.mk "c" 1]].map List.length).sum) :=
  ⟨by decide, by decide,
    c7_day_bucket_aggregation 0 2 (by decide) [[⟨"a", 0⟩, ⟨"b", 2⟩], [⟨"c", 1⟩]] (by decide)⟩

/-- C1: for every number of events `n ≥ 1` and every finite sequence of playback
operations (step forward/backward, jump to start/end, play/pause toggles and
timer ticks) starting from cursor `1`, the cursor stays in `[1, n]`. -/
theorem c1_playback_cursor_invariant (n : Int) (hn : 1 ≤ n) (ops : List PlaybackOp) :
    1 ≤ (runPlayback n ops initialPlayback).eventCount ∧
      (runPlayback n ops initialPlayback).eventCount ≤ n :=
  cursorInRange_run n hn ops initialPlayback ⟨le_refl 1, hn⟩

/-- Witness for C1 at `n = 3` and a concrete operation sequence. -/
theorem c1_playback_cursor_invariant_witness :
    (1 : Int) ≤ 3 ∧
      (1 ≤ (runPlayback 3 [.stepForward, .playPause, .tick, .tick, .stepBackward, .jumpEnd]
            initialPlayback).eventCount ∧
        (runPlayback 3 [.stepForward, .playPause, .tick, .tick, .stepBackward, .jumpEnd]
            initialPlayback).eventCount ≤ 3) :=
  ⟨by decide,
    c1_playback_cursor_invariant 3 (by decide)
      [.stepForward, .playPause, .tick, .tick, .stepBackward, .jumpEnd]⟩

/-- C2: for every `n ≥ 1` and every state, `jump_end` then `step_forward` leaves
the cursor at `n`, and `jump_start` then `step_backward` leaves it at `1`;
moreover for `n = 5` starting at cursor `1`, four `step_forward` calls yield
cursor `5` and a fifth call still yields `5`. -/
theorem c2_boundary_step_noops (n : Int) (_hn : 1 ≤ n) (s : PlaybackState) :
    (handleStepForward n (handleJumpToEnd n s)).eventCount = n ∧
    (handleStepBackward (handleJumpToStart s)).eventCount = 1 ∧
    (runPlayback 5 [.stepForward, .stepForward, .stepForward, .stepForward]
        initialPlayback).eventCount = 5 ∧
    (runPlayback 5 [.stepForward, .stepForward, .stepForward, .stepForward, .stepForward]
        initialPlayback).eventCount = 5 := by
  refine ⟨?_, ?_, by decide, by decide⟩
  · simp only [handleStepForward, handleJumpToEnd]
    simp
  · simp only [handleStepBackward, handleJumpToStart]
    simp

/-- Witness for C2 at `n = 7` and a concrete state. -/
theorem c2_boundary_step_noops_witness :
    (1 : Int) ≤ 7 ∧
      ((handleStepForward 7 (handleJumpToEnd 7 ⟨2, false⟩)).eventCount = 7 ∧
        (handleStepBackward (handleJumpToStart ⟨2, false⟩)).eventCount = 1 ∧
        (runPlayback 5 [.stepForward, .stepForward, .stepForward, .stepForward]
            initialPlayback).eventCount = 5 ∧
        (runPlayback 5 [.stepForward, .stepForward, .stepForward, .stepForward, .stepForward]
            initialPlayback).eventCount = 5) :=
  ⟨by decide, c2_boundary_step_noops 7 (by decide) ⟨2, false⟩⟩

/-- C3: while the playing flag is true, one auto-play timer tick maps a cursor
`c` to `c + 1` when `c < n`, and wraps it back to `1` when `c ≥ n`. -/
theorem c3_autoplay_tick_wraps (n : Int) (s : PlaybackState) (hp : s.isPlaying = true) :
    (s.eventCount < n → (autoPlayTick n s).eventCount = s.eventCount + 1) ∧
    (s.eventCount ≥ n → (autoPlayTick n s).eventCount = 1) := by
  simp only [autoPlayTick, hp, if_true]
  constructor <;> intro h <;> split_ifs <;> (try simp) <;> omega

/-- Witness for C3 at `n = 5` with the cursor at `2` while playing. -/
theorem c3_autoplay_tick_wraps_witness :
    (PlaybackState.mk 2 true).isPlaying = true ∧
      (((PlaybackState.mk 2 true).eventCount < 5 →
          (autoPlayTick 5 ⟨2, true⟩).eventCount = (PlaybackState.mk 2 true).eventCount + 1) ∧
        ((PlaybackState.mk 2 true).eventCount ≥ 5 →
          (autoPlayTick 5 ⟨2, true⟩).eventCount = 1)) :=
  ⟨rfl, c3_autoplay_tick_wraps 5 ⟨2, true⟩ rfl⟩

/-- C4: for every decodable token whose payload object carries a numeric
`exp` field, `isTokenExpired` classifies `exp` one second before the current
time as expired (`true`) and `exp` one second after as valid (`false`). -/
theorem c4_token_expiry_classification (token : String) (fields : List (String × JsonVal))
    (nowSeconds e : Int) (hdec : decodeJWT token = some (.obj fields))
    (hexp : jsonFieldLookup fields "exp" = some (.num e)) :
    (e = nowSeconds - 1 → isTokenExpired token nowSeconds = true) ∧
    (e = nowSeconds + 1 → isTokenExpired token nowSeconds = false) := by
  have h : isTokenExpired token nowSeconds = decide (e < nowSeconds) := by
    unfold isTokenExpired
    rw [hdec]
    simp [jsTruthy, hexp]
  constructor <;> rintro rfl <;> rw [h]
  · simp only [decide_eq_true_eq]
    omega
  · simp only [decide_eq_false_iff_not]
    omega

/-- Witness for C4: the sample token decodes to `exp = 999`, which is
expired at time `1000` and valid at time `998`. -/
theorem c4_token_expiry_classification_witness :
    (decodeJWT sampleToken = some (.obj [("exp", .num 999)]) ∧
      jsonFieldLookup [("exp", JsonVal.num 999)] "exp" = some (.num 999)) ∧
    isTokenExpired sampleToken 1000 = true ∧ isTokenExpired sampleToken 998 = false :=
  ⟨⟨by rfl, by rfl⟩,
    (c4_token_expiry_classification sampleToken [("exp", .num 999)] 1000 999
      (by rfl) (by rfl)).1 (by decide),
    (c4_token_expiry_classification sampleToken [("exp", .num 999)] 998 999
      (by rfl) (by rfl)).2 (by decide)⟩

/-- C10: `decodeJWT` never raises: a token with no second dot-segment, an
invalid-base64 payload or an invalid-JSON payload decodes to `null`
(witnessed on concrete inputs of each kind and proved for every token
without a payload segment), and every undecodable token is classified
expired by `isTokenExpired`. -/
theorem c10_decode_jwt_totality :
    (∀ token nowSeconds, decodeJWT token = none → isTokenExpired token nowSeconds = true) ∧
    (∀ token, (splitOnDot token.data).get? 1 = none → decodeJWT token = none) ∧
    decodeJWT "not-a-jwt" = none ∧
    decodeJWT "h.!!!.s" = none ∧
    decodeJWT "h.aGVsbG8.s" = none ∧
    (∀ nowSeconds, isTokenExpired "h.!!!.s" nowSeconds = true) := by
  refine ⟨?_, ?_, by rfl, by rfl, by rfl, ?_⟩
  · intro token nowSeconds h
    unfold isTokenExpired
    rw [h]
  · intro token h
    unfold decodeJWT
    rw [h]
  · intro nowSeconds
    unfold isTokenExpired
    rw [show decodeJWT "h.!!!.s" = none from rfl]

/-- Witness for C10 at the dot-free token `"x"`. -/
theorem c10_decode_jwt_totality_witness :
    ((splitOnDot "x".data).get? 1 = none ∧ decodeJWT "x" = none) ∧
      isTokenExpired "x" 0 = true :=
  ⟨⟨by rfl, c10_decode_jwt_totality.2.1 "x" (by rfl)⟩,
    c10_decode_jwt_totality.1 "x" 0 (by rfl)⟩

/-- C8: a 401 response makes the interceptor remove the stored auth token,
after which every protected-route check redirects to the sign-in page. -/
theorem c8_unauthorized_clears_token_and_redirects (st : BrowserStorage)
    (status : Option Nat) (nowSeconds : Int) (h401 : status = some 401) :
    (interceptorOnError st status).authToken = none ∧
    (privateRoute (interceptorOnError st status) nowSeconds).1 = .redirectToLogin := by
  subst h401
  constructor
  · simp [interceptorOnError]
  · simp [interceptorOnError, privateRoute]

/-- Witness for C8 on a store holding a token. -/
theorem c8_unauthorized_clears_token_and_redirects_witness :
    (some 401 : Option Nat) = some 401 ∧
      ((interceptorOnError ⟨some "tok", some "me"⟩ (some 401)).authToken = none ∧
        (privateRoute (interceptorOnError ⟨some "tok", some "me"⟩ (some 401)) 0).1 =
          .redirectToLogin) :=
  ⟨rfl, c8_unauthorized_clears_token_and_redirects ⟨some "tok", some "me"⟩ (some 401) 0 rfl⟩

/-- C9 counterexample: the claim says `getHealth` resolves with a neutral
value on error, but on a network error it rejects (rethrows the error). -/
theorem c9_health_error_rejects_counterexample :
    getHealth (Except.error ApiError.network) = Except.error ApiError.network := rfl

/-- C9 (amended): errors from the unread-count poll are swallowed —
`getUnreadCount` resolves with the neutral `\x7b unreadCount: 0 \x7d` — while
`getHealth` rethrows, so its errors reject and reach the caller. -/
theorem c9_polling_error_handling (e : ApiError) :
    getUnreadCount (Except.error e) =
      Except.ok (JsonVal.obj [("unreadCount", JsonVal.num 0)]) ∧
    getHealth (Except.error e) = Except.error e :=
  ⟨rfl, rfl⟩


lemma hexDigitVal_hexCharLower (n : Nat) (h : n < 16) :
    hexDigitVal (hexCharLower n) = some n := by
  interval_cases n <;> decide

lemma parseStringAux_hex_step (left acc : Nat) (hleft : left ≠ 1) (d : Nat) (hd : d < 16)
    (cs : List Char) :
    parseStringAux (.hex left acc) (hexCharLower d :: cs) =
      parseStringAux (.hex (left - 1) (acc * 16 + d)) cs := by
  simp [parseStringAux, hexDigitVal_hexCharLower d hd, hleft]

lemma parseStringAux_hex_last (acc d : Nat) (hd : d < 16) (hcode : acc * 16 + d < 0xD800)
    (cs : List Char) :
    parseStringAux (.hex 1 acc) (hexCharLower d :: cs) =
      consFst (Char.ofNat (acc * 16 + d)) (parseStringAux .normal cs) := by
  simp only [parseStringAux, hexDigitVal_hexCharLower d hd, if_true]
  rw [if_neg (by omega)]

lemma parseStringBody_escape (cs rest : List Char) :
    parseStringBody (escapeJsonString cs ++ '"' :: rest) = some (cs, rest) := by
  induction cs with
  | nil => simp [escapeJsonString, parseStringBody, parseStringAux]
  | cons c t ih =>
    simp only [parseStringBody] at ih
    show parseStringAux .normal ((escapeJsonChar c ++ escapeJsonString t) ++ '"' :: rest) = _
    rw [List.append_assoc]
    by_cases h1 : c = '"'
    · subst h1
      simp [escapeJsonChar, parseStringAux, simpleEscape, consFst, ih]
    by_cases h2 : c = '\\'
    · subst h2
      simp [escapeJsonChar, parseStringAux, simpleEscape, consFst, ih]
    by_cases h3 : c = Char.ofNat 8
    · subst h3
      simp [escapeJsonChar, parseStringAux, simpleEscape, consFst, ih]
    by_cases h4 : c = Char.ofNat 12
    · subst h4
      simp [escapeJsonChar, parseStringAux, simpleEscape, consFst, ih]
    by_cases h5 : c = '\n'
    · subst h5
      simp [escapeJsonChar, parseStringAux, simpleEscape, consFst, ih]
    by_cases h6 : c = '\r'
    · subst h6
      simp [escapeJsonChar, parseStringAux, simpleEscape, consFst, ih]
    by_cases h7 : c = '\t'
    · subst h7
      simp [escapeJsonChar, parseStringAux, simpleEscape, consFst, ih]
    by_cases h8 : c.toNat < 0x20
    · have hesc : escapeJsonChar c =
          ['\\', 'u', '0', '0', hexCharLower (c.toNat / 16), hexCharLower (c.toNat % 16)] := by
        simp [escapeJsonChar, h1, h2, h3, h4, h5, h6, h7, h8]
      rw [hesc]
      simp only [List.cons_append, List.nil_append]
      have hjump : parseStringAux .normal
          ('\\' :: 'u' :: '0' :: '0' :: hexCharLower (c.toNat / 16) :: hexCharLower (c.toNat % 16)
            :: (escapeJsonString t ++ '"' :: rest)) =
          parseStringAux (.hex 2 0) (hexCharLower (c.toNat / 16) :: hexCharLower (c.toNat % 16)
            :: (escapeJsonString t ++ '"' :: rest)) := rfl
      rw [hjump]
      rw [parseStringAux_hex_step 2 0 (by decide) (c.toNat / 16) (by omega)]
      have h2m1 : (2 : Nat) - 1 = 1 := rfl
      rw [h2m1]
      rw [parseStringAux_hex_last (0 * 16 + c.toNat / 16) (c.toNat % 16) (by omega) (by omega)]
      have hdm : (0 * 16 + c.toNat / 16) * 16 + c.toNat % 16 = c.toNat := by omega
      rw [hdm, Char.ofNat_toNat]
      simp [consFst, ih]
    · simp [escapeJsonChar, h1, h2, h3, h4, h5, h6, h7, h8, parseStringAux, consFst, ih]

lemma natDigits_ne_nil (n : Nat) : natDigits n ≠ [] := by
  rw [natDigits]
  split <;> simp

lemma natDigits_all_digits (n : Nat) : ∀ c ∈ natDigits n, c.isDigit := by
  induction n using Nat.strong_induction_on with
  | _ n ih =>
    rw [natDigits]
    split
    · rename_i h
      intro c hc
      simp at hc
      subst hc
      interval_cases n <;> decide
    · rename_i h
      intro c hc
      rw [List.mem_append] at hc
      rcases hc with hc | hc
      · exact ih (n / 10) (by omega) c hc
      · simp at hc
        subst hc
        have h10 : n % 10 < 10 := by omega
        generalize n % 10 = m at h10
        interval_cases m <;> decide

lemma digit_char_toNat (m : Nat) (h : m < 10) : (Char.ofNat (48 + m)).toNat = 48 + m := by
  interval_cases m <;> decide

lemma digitsToNat_natDigits (n : Nat) : digitsToNat (natDigits n) = n := by
  induction n using Nat.strong_induction_on with
  | _ n ih =>
    rw [natDigits]
    split
    · rename_i h
      simp [digitsToNat, digit_char_toNat n h]
    · rename_i h
      have happ : digitsToNat (natDigits (n / 10) ++ [Char.ofNat (48 + n % 10)]) =
          10 * digitsToNat (natDigits (n / 10)) + ((Char.ofNat (48 + n % 10)).toNat - 48) := by
        simp [digitsToNat, List.foldl_append]
        omega
      rw [happ, ih (n / 10) (by omega), digit_char_toNat (n % 10) (by omega)]
      omega

lemma natDigits_head_ne_zero (n : Nat) (h : 1 ≤ n) : (natDigits n).head? ≠ some '0' := by
  induction n using Nat.strong_induction_on with
  | _ n ih =>
    rw [natDigits]
    split
    · rename_i hlt
      intro hc
      simp at hc
      have := congrArg Char.toNat hc
      rw [digit_char_toNat n hlt] at this
      simp [show ('0').toNat = 48 from rfl] at this
      omega
    · rename_i hge
      cases hA : natDigits (n / 10) with
      | nil => exact absurd hA (natDigits_ne_nil _)
      | cons a as =>
        have := ih (n / 10) (by omega) (by omega)
        rw [hA] at this
        simpa using this

lemma natDigits_no_leading_zero (n : Nat) :
    ¬((natDigits n).length > 1 ∧ (natDigits n).head? = some '0') := by
  rcases Nat.eq_zero_or_pos n with h | h
  · subst h
    intro ⟨h1, _⟩
    rw [natDigits] at h1
    simp at h1
  · intro ⟨_, h2⟩
    exact natDigits_head_ne_zero n h (by exact h2)

lemma takeDigits_append (ds rest : List Char) (hds : ∀ c ∈ ds, c.isDigit)
    (hrest : ∀ c, rest.head? = some c → ¬(c.isDigit = true)) :
    takeDigits (ds ++ rest) = (ds, rest) := by
  induction ds with
  | nil =>
    cases rest with
    | nil => rfl
    | cons c r => simp [takeDigits, hrest c rfl]
  | cons d t ih =>
    have hd : d.isDigit := hds d (List.mem_cons_self _ _)
    have ht : ∀ c ∈ t, c.isDigit := fun c hc => hds c (List.mem_cons_of_mem _ hc)
    simp [takeDigits, hd, ih ht]


lemma parseNatToken_natDigits (n : Nat) (rest : List Char) (hrest : numBoundary rest) :
    parseNatToken (natDigits n ++ rest) = some (n, rest) := by
  unfold parseNatToken
  rw [takeDigits_append _ _ (natDigits_all_digits n) (fun c hc => (hrest c hc).1)]
  rw [if_neg (by simpa using natDigits_ne_nil n)]
  rw [if_neg (by simpa using natDigits_no_leading_zero n)]
  rw [if_neg ?hb]
  · rw [digitsToNat_natDigits]
  case hb =>
    rintro (h | h | h)
    · exact absurd rfl (hrest '.' h).2.1
    · exact absurd rfl (hrest 'e' h).2.2.1
    · exact absurd rfl (hrest 'E' h).2.2.2

lemma renderInt_head (n : Int) :
    ∃ d ds, renderInt n = d :: ds ∧ (d = '-' ∨ d.isDigit) := by
  unfold renderInt
  split_ifs with hneg
  · exact ⟨'-', _, rfl, Or.inl rfl⟩
  · cases hA : natDigits n.toNat with
    | nil => exact absurd hA (natDigits_ne_nil _)
    | cons a as =>
      refine ⟨a, as, rfl, Or.inr ?_⟩
      exact natDigits_all_digits _ a (by rw [hA]; exact List.mem_cons_self _ _)

lemma parseNumberToken_renderInt (n : Int) (rest : List Char) (hrest : numBoundary rest) :
    parseNumberToken (renderInt n ++ rest) = some (n, rest) := by
  by_cases hneg : n < 0
  · have hr : renderInt n = '-' :: natDigits n.natAbs := by
      unfold renderInt
      rw [if_pos hneg]
    rw [hr]
    simp only [List.cons_append]
    simp only [parseNumberToken, if_true]
    rw [parseNatToken_natDigits n.natAbs rest hrest]
    show some (-(n.natAbs : Int), rest) = some (n, rest)
    rw [show -(n.natAbs : Int) = n by omega]
  · have hr : renderInt n = natDigits n.toNat := by
      unfold renderInt
      rw [if_neg hneg]
    rw [hr]
    cases hA : natDigits n.toNat with
    | nil => exact absurd hA (natDigits_ne_nil _)
    | cons a as =>
      have ha : a.isDigit :=
        natDigits_all_digits _ a (by rw [hA]; exact List.mem_cons_self _ _)
      have ham : a ≠ '-' := by
        intro h
        rw [h] at ha
        exact absurd ha (by decide)
      simp only [List.cons_append]
      simp only [parseNumberToken]
      rw [if_neg ham]
      rw [show a :: (as ++ rest) = (a :: as) ++ rest from rfl, ← hA,
        parseNatToken_natDigits n.toNat rest hrest]
      show some ((n.toNat : Int), rest) = some (n, rest)
      rw [show ((n.toNat : Int)) = n by omega]

lemma digit_first_char (d : Char) (h : d.isDigit = true) :
    isJsonWs d = false ∧ d ≠ 't' ∧ d ≠ 'f' ∧ d ≠ 'n' ∧ d ≠ '"' ∧
      d ≠ Char.ofNat 123 ∧ d ≠ '[' := by
  have w1 : d ≠ ' ' := by intro hh; rw [hh] at h; exact absurd h (by decide)
  have w2 : d ≠ '\t' := by intro hh; rw [hh] at h; exact absurd h (by decide)
  have w3 : d ≠ '\n' := by intro hh; rw [hh] at h; exact absurd h (by decide)
  have w4 : d ≠ '\r' := by intro hh; rw [hh] at h; exact absurd h (by decide)
  refine ⟨by simp [isJsonWs, w1, w2, w3, w4], ?_, ?_, ?_, ?_, ?_, ?_⟩ <;>
    intro hh <;> rw [hh] at h <;> exact absurd h (by decide)

lemma parseJsonValue_str (fuel : Nat) (v : String) (rest : List Char) :
    parseJsonValue (fuel + 1) ('"' :: (escapeJsonString v.data ++ '"' :: rest)) =
      some (.str v, rest) := by
  simp [parseJsonValue, skipWs, isJsonWs, parseStringBody_escape v.data rest]

lemma parseJsonValue_bool (fuel : Nat) (b : Bool) (ind : List Char) (rest : List Char) :
    parseJsonValue (fuel + 1) (renderJson ind (.bool b) ++ rest) = some (.bool b, rest) := by
  cases b <;> simp [renderJson, parseJsonValue, skipWs, isJsonWs]

lemma parseJsonValue_num (fuel : Nat) (n : Int) (ind : List Char) (rest : List Char)
    (hrest : numBoundary rest) :
    parseJsonValue (fuel + 1) (renderJson ind (.num n) ++ rest) = some (.num n, rest) := by
  have hre : renderJson ind (.num n) = renderInt n := by simp [renderJson]
  rw [hre]
  obtain ⟨d, ds, hd, hcase⟩ := renderInt_head n
  have hfacts : isJsonWs d = false ∧ d ≠ 't' ∧ d ≠ 'f' ∧ d ≠ 'n' ∧ d ≠ '"' ∧
      d ≠ Char.ofNat 123 ∧ d ≠ '[' ∧ (d = '-' ∨ d.isDigit = true) := by
    rcases hcase with rfl | hdd
    · exact ⟨by decide, by decide, by decide, by decide, by decide, by decide, by decide,
        Or.inl rfl⟩
    · obtain ⟨hw, ht, hf, hn, hq, hb, hbr⟩ := digit_first_char d hdd
      exact ⟨hw, ht, hf, hn, hq, hb, hbr, Or.inr hdd⟩
  obtain ⟨hw, ht, hf, hn, hq, hb, hbr, hnum⟩ := hfacts
  rw [hd]
  simp only [List.cons_append]
  simp only [parseJsonValue, skipWs, hw, Bool.false_eq_true, if_false]
  rw [if_neg ht, if_neg hf, if_neg hn, if_neg hq, if_neg hb, if_neg hbr, if_pos hnum]
  rw [show d :: (ds ++ rest) = (d :: ds) ++ rest from rfl, ← hd,
    parseNumberToken_renderInt n rest hrest]


lemma leafParses_str (v : String) : LeafParses (.str v) := by
  intro fuel ind rest _
  have hre : renderJson ind (.str v) = '"' :: (escapeJsonString v.data ++ ['"']) := by
    simp [renderJson]
  rw [hre]
  simp only [List.cons_append, List.append_assoc, List.singleton_append]
  exact parseJsonValue_str fuel v rest

lemma leafParses_num (n : Int) : LeafParses (.num n) :=
  fun fuel ind rest hb => parseJsonValue_num fuel n ind rest hb

lemma leafParses_bool (b : Bool) : LeafParses (.bool b) :=
  fun fuel ind rest _ => parseJsonValue_bool fuel b ind rest

lemma parseJsonValue_ws_char (fuel : Nat) (c : Char) (hc : isJsonWs c = true)
    (cs : List Char) :
    parseJsonValue (fuel + 1) (c :: cs) = parseJsonValue (fuel + 1) cs := by
  simp only [parseJsonValue, skipWs, hc, if_true]

lemma parseMembers_ws_char (fuel : Nat) (c : Char) (hc : isJsonWs c = true)
    (cs : List Char) (acc : List (String × JsonVal)) :
    parseMembers (fuel + 1) (c :: cs) acc = parseMembers (fuel + 1) cs acc := by
  simp only [parseMembers, skipWs, hc, if_true]

lemma parseMembers_succ_quote (fuel : Nat) (E : List Char) (acc : List (String × JsonVal)) :
    parseMembers (Nat.succ fuel) ('"' :: E) acc =
      (match parseStringBody E with
       | some (k, r2) =>
         match skipWs r2 with
         | ':' :: r3 =>
           match parseJsonValue fuel r3 with
           | some (v, r4) =>
             match skipWs r4 with
             | [] => none
             | c5 :: r5 =>
               if c5 = ',' then parseMembers fuel r5 (acc ++ [(String.mk k, v)])
               else if c5 = Char.ofNat 125 then
                 some (.obj (acc ++ [(String.mk k, v)]), r5)
               else none
           | none => none
         | _ => none
       | none => none) := rfl

lemma parseMembers_field (g : Nat) (k : String) (v : JsonVal) (hv : LeafParses v)
    (tail : List Char) (acc : List (String × JsonVal)) (hb : numBoundary tail) :
    parseMembers (g + 2) (renderField [] (k, v) ++ tail) acc =
      (match skipWs tail with
       | [] => none
       | c5 :: r5 =>
         if c5 = ',' then parseMembers (g + 1) r5 (acc ++ [(k, v)])
         else if c5 = Char.ofNat 125 then some (.obj (acc ++ [(k, v)]), r5)
         else none) := by
  have hrf : renderField [] (k, v) ++ tail =
      ' ' :: ' ' :: '"' :: (escapeJsonString k.data ++
        '"' :: ':' :: ' ' :: (renderJson [' ', ' '] v ++ tail)) := by
    simp [renderField, List.append_assoc]
  rw [hrf]
  rw [show g + 2 = Nat.succ (g + 1) from rfl]
  rw [parseMembers_ws_char (g + 1) ' ' (by decide), parseMembers_ws_char (g + 1) ' ' (by decide)]
  rw [show Nat.succ g + 1 = Nat.succ (g + 1) from rfl]
  rw [parseMembers_succ_quote (g + 1)]
  rw [parseStringBody_escape k.data]
  simp only []
  rw [show skipWs (':' :: ' ' :: (renderJson [' ', ' '] v ++ tail)) =
    ':' :: (' ' :: (renderJson [' ', ' '] v ++ tail)) from by simp [skipWs, isJsonWs]]
  simp only []
  rw [parseJsonValue_ws_char g ' ' (by decide), hv g [' ', ' '] tail hb]

lemma parseMembers_renderFields (fs : List (String × JsonVal)) :
    ∀ (f : String × JsonVal) (g : Nat) (acc : List (String × JsonVal)) (rest : List Char),
      (∀ p ∈ f :: fs, LeafParses p.2) →
      parseMembers (g + fs.length + 2)
          (renderFields [] f fs ++ ('\n' :: Char.ofNat 125 :: rest)) acc =
        some (.obj (acc ++ (f :: fs)), rest) := by
  induction fs with
  | nil =>
    intro f g acc rest hleaf
    obtain ⟨k, v⟩ := f
    have hv : LeafParses v := hleaf (k, v) (List.mem_cons_self _ _)
    have hb : numBoundary ('\n' :: Char.ofNat 125 :: rest) := by
      intro c hc
      simp at hc
      subst hc
      refine ⟨by decide, by decide, by decide, by decide⟩
    have hrf : renderFields [] (k, v) [] = renderField [] (k, v) := by
      simp [renderFields]
    rw [hrf, show g + List.length ([] : List (String × JsonVal)) + 2 = g + 2 from by simp,
      parseMembers_field g k v hv _ acc hb]
    rw [show skipWs ('\n' :: Char.ofNat 125 :: rest) = Char.ofNat 125 :: rest from by
      simp [skipWs, isJsonWs]]
    simp only []
    rw [if_neg (show ¬(Char.ofNat 125 = ',') by decide)]
    simp only [if_true]
  | cons f2 fs' ih =>
    intro f g acc rest hleaf
    obtain ⟨k, v⟩ := f
    have hv : LeafParses v := hleaf (k, v) (List.mem_cons_self _ _)
    have hleaf' : ∀ p ∈ f2 :: fs', LeafParses p.2 :=
      fun p hp => hleaf p (List.mem_cons_of_mem _ hp)
    have hrf : renderFields [] (k, v) (f2 :: fs') ++ ('\n' :: Char.ofNat 125 :: rest) =
        renderField [] (k, v) ++
          (',' :: '\n' :: (renderFields [] f2 fs' ++ ('\n' :: Char.ofNat 125 :: rest))) := by
      simp [renderFields, List.append_assoc]
    have hb : numBoundary
        (',' :: '\n' :: (renderFields [] f2 fs' ++ ('\n' :: Char.ofNat 125 :: rest))) := by
      intro c hc
      simp at hc
      subst hc
      refine ⟨by decide, by decide, by decide, by decide⟩
    rw [hrf]
    rw [show g + (f2 :: fs').length + 2 = (g + fs'.length + 1) + 2 from by simp; omega,
      parseMembers_field (g + fs'.length + 1) k v hv _ acc hb]
    rw [show skipWs (',' :: '\n' :: (renderFields [] f2 fs' ++ ('\n' :: Char.ofNat 125 :: rest))) =
      ',' :: ('\n' :: (renderFields [] f2 fs' ++ ('\n' :: Char.ofNat 125 :: rest))) from by
      simp [skipWs, isJsonWs]]
    simp only []
    simp only [if_true]
    rw [show g + fs'.length + 1 + 1 = (g + fs'.length + 1) + 1 from rfl,
      parseMembers_ws_char (g + fs'.length + 1) '\n' (by decide)]
    rw [show g + fs'.length + 1 + 1 = g + fs'.length + 2 from rfl, ih f2 g (acc ++ [(k, v)]) rest hleaf']
    simp

lemma renderFields_head (f : String × JsonVal) (fs : List (String × JsonVal)) :
    ∃ E, renderFields [] f fs = ' ' :: ' ' :: '"' :: E := by
  obtain ⟨k, v⟩ := f
  cases fs with
  | nil =>
    refine ⟨escapeJsonString k.data ++ '"' :: ':' :: ' ' :: renderJson [' ', ' '] v, ?_⟩
    simp [renderFields, renderField, List.append_assoc]
  | cons f2 fs' =>
    refine ⟨escapeJsonString k.data ++ '"' :: ':' :: ' ' :: (renderJson [' ', ' '] v ++
      ',' :: '\n' :: renderFields [] f2 fs'), ?_⟩
    simp [renderFields, renderField, List.append_assoc]

lemma renderFields_length_ge (f : String × JsonVal) (fs : List (String × JsonVal)) :
    fs.length + 1 ≤ (renderFields [] f fs).length := by
  induction fs generalizing f with
  | nil =>
    obtain ⟨E, hE⟩ := renderFields_head f []
    rw [hE]
    simp
  | cons f2 fs' ih =>
    obtain ⟨k, v⟩ := f
    have h : renderFields [] (k, v) (f2 :: fs') =
        renderField [] (k, v) ++ (',' :: '\n' :: renderFields [] f2 fs') := by
      simp [renderFields]
    rw [h]
    have := ih f2
    simp [List.length_append]
    omega

lemma parseMembers_skipWs (fuel : Nat) (cs : List Char) (acc : List (String × JsonVal)) :
    parseMembers (fuel + 1) (skipWs cs) acc = parseMembers (fuel + 1) cs acc := by
  induction cs with
  | nil => rfl
  | cons c r ih =>
    by_cases hc : isJsonWs c
    · rw [show skipWs (c :: r) = skipWs r from by simp [skipWs, hc], ih,
        parseMembers_ws_char fuel c hc]
    · rw [show skipWs (c :: r) = c :: r from by simp [skipWs, hc]]

lemma parseJsonValue_succ_brace (fuel : Nat) (r : List Char) :
    parseJsonValue (Nat.succ fuel) (Char.ofNat 123 :: r) =
      (match skipWs r with
       | [] => none
       | c2 :: r2 =>
         if c2 = Char.ofNat 125 then some (.obj [], r2)
         else parseMembers fuel (c2 :: r2) []) := rfl

lemma jsonParse_stringify_obj (f : String × JsonVal) (fs : List (String × JsonVal))
    (hleaf : ∀ p ∈ f :: fs, LeafParses p.2) :
    jsonParse (jsonStringify2 (.obj (f :: fs))) = some (.obj (f :: fs)) := by
  obtain ⟨E, hE⟩ := renderFields_head f fs
  have hchars : (jsonStringify2 (.obj (f :: fs))).data =
      Char.ofNat 123 :: '\n' :: (renderFields [] f fs ++ ('\n' :: Char.ofNat 125 :: [])) := by
    simp [jsonStringify2, renderJson]
  have hlen : (jsonStringify2 (.obj (f :: fs))).length =
      (renderFields [] f fs).length + 4 := by
    show (jsonStringify2 (.obj (f :: fs))).data.length = _
    rw [hchars]
    simp
  have hge := renderFields_length_ge f fs
  -- fuel bookkeeping: length + 1 = Nat.succ (length) and the members get `length` units
  rw [jsonParse, hchars, hlen]
  rw [show (renderFields [] f fs).length + 4 + 1 =
    Nat.succ ((renderFields [] f fs).length + 4) from rfl]
  rw [parseJsonValue_succ_brace]
  have hskip : skipWs ('\n' :: (renderFields [] f fs ++ ('\n' :: Char.ofNat 125 :: []))) =
      '"' :: (E ++ ('\n' :: Char.ofNat 125 :: [])) := by
    rw [hE]
    simp [skipWs, isJsonWs]
  rw [hskip]
  simp only []
  rw [if_neg (show ¬(('"' : Char) = Char.ofNat 125) by decide)]
  rw [show '"' :: (E ++ ('\n' :: Char.ofNat 125 :: [])) =
    skipWs ('\n' :: (renderFields [] f fs ++ ('\n' :: Char.ofNat 125 :: []))) from hskip.symm]
  rw [show (renderFields [] f fs).length + 4 = ((renderFields [] f fs).length + 3) + 1 from rfl,
    parseMembers_skipWs, parseMembers_ws_char ((renderFields [] f fs).length + 3) '\n' (by decide)]
  rw [show (renderFields [] f fs).length + 3 + 1 =
    ((renderFields [] f fs).length + 2 - fs.length) + fs.length + 2 from by omega]
  rw [parseMembers_renderFields fs f ((renderFields [] f fs).length + 2 - fs.length) [] [] hleaf]
  all_goals simp [skipWs]

lemma settingsToJson_fields_leaf (s : Settings) :
    ∀ p ∈ ("apiUrl", JsonVal.str s.apiUrl) ::
        [("refreshInterval", JsonVal.num s.refreshInterval),
         ("maxEventsPerPage", JsonVal.num s.maxEventsPerPage),
         ("enableNotifications", JsonVal.bool s.enableNotifications),
         ("enableAutoRefresh", JsonVal.bool s.enableAutoRefresh),
         ("retentionDays", JsonVal.num s.retentionDays),
         ("compressionEnabled", JsonVal.bool s.compressionEnabled),
         ("debugMode", JsonVal.bool s.debugMode)], LeafParses p.2 := by
  intro p hp
  simp only [List.mem_cons, List.not_mem_nil, or_false] at hp
  rcases hp with rfl | rfl | rfl | rfl | rfl | rfl | rfl | rfl
  · exact leafParses_str _
  · exact leafParses_num _
  · exact leafParses_num _
  · exact leafParses_bool _
  · exact leafParses_bool _
  · exact leafParses_num _
  · exact leafParses_bool _
  · exact leafParses_bool _

/-- C6: exporting any settings object (`JSON.stringify(settings, null, 2)`)
and importing the exported text (`JSON.parse` followed by the object spread
over any current settings) reproduces exactly the original settings object;
and the settings serialisation is injective, so equal serialised objects
mean equal settings. -/
theorem c6_settings_export_import_roundtrip (current s : Settings) :
    handleImportSettings current (handleExportSettings s) = some (settingsToJson s) ∧
    (∀ a b : Settings, settingsToJson a = settingsToJson b → a = b) := by
  constructor
  · have hparse : jsonParse (handleExportSettings s) = some (settingsToJson s) :=
      jsonParse_stringify_obj ("apiUrl", JsonVal.str s.apiUrl) _
        (settingsToJson_fields_leaf s)
    simp only [handleImportSettings, hparse]
    rfl
  · intro a b h
    cases a
    cases b
    simp_all [settingsToJson]

end EventStoreDashboard
